import Mathlib

/-!
Verification development for the yes-no-chart-app repository.

The definitions below are shallow embeddings of the program's own code:

* the chart data model (`IQuestion`, `IDiagnosis`, `IChart`, `IPoint`,
  `IHistory`, `IResult`) from the backend models file and the frontend
  type declarations;
* the chart evaluator `handleChoiceSelect` from the chart app's
  ChartDisplay component (single/multi/decision/legacy-point branches);
* the CSV compiler `parseCSVToChart` with `parseQuestionRow` and
  `parseDiagnosisRow` from the setting app's csv module
  (the current revision handling decision/single/multi charts);
* the CryptoBox operations: `encryptImage` (backend EncryptImage),
  `decryptAES256CTR` (aggregation tool) and the stale backend
  `DecryptImage`, all modelled over an arbitrary 16-byte block function
  standing for the keyed AES block cipher (the entropy draw for the IV is
  passed in as an argument, so the transforms are pure);
* the aggregation tool's `getResultText` single-branch
  (`getResultTextSinglePoint`) from the tool's csv module;
* the backend `SaveResultHandler`'s record construction.

Machine integers of the source (Go int, JS number holding integers) are
modelled as `Int`; byte sequences as `List Nat` with each element a byte
value.  Fallible code returns `Except`.
-/

/-- Question record: backend models IQuestion / frontend IQuestion.
`points` is an optional field (omitted for decision charts). -/
structure IQuestion where
  id : Int
  isLast : Bool
  category : String
  sentence : String
  choises : List String
  nexts : List Int
  points : Option (List Int)
  deriving Repr, DecidableEq

/-- Diagnosis record: backend models IDiagnosis / frontend IDiagnosis. -/
structure IDiagnosis where
  id : Int
  category : String
  lower : Int
  upper : Int
  sentence : String
  deriving Repr, DecidableEq

/-- Chart record: backend models IChart / frontend IChart.  The source
field `type` keeps its name. -/
structure IChart where
  name : String
  type : String
  questions : List IQuestion
  diagnoses : List IDiagnosis
  deriving Repr, DecidableEq

/-- Per-category point entry: backend models IPoint / frontend IPoint. -/
structure IPoint where
  category : String
  point : Int
  deriving Repr, DecidableEq

/-- Choice-history entry: backend models IHistory / frontend IHistory. -/
structure IHistory where
  questionId : Int
  choise : Int
  deriving Repr, DecidableEq

/-- Run state sent to the save endpoint: backend models IResult /
frontend IResult.  Optional pointers/fields become `Option`; the
`currentPoints` array models both the absent and the present list (an
absent array behaves as `[]` at every use site of the evaluator, which
reads it through `currentPoints || []`). -/
structure IResult where
  chartName : String
  chartType : String
  timestamp : String
  photo : String
  currentQId : Option Int
  currentPoint : Option Int
  currentPoints : List IPoint
  diagnosisId : Option Int
  history : List IHistory
  deriving Repr, DecidableEq

/-! ## CryptoBox

Go's `crypto/aes` + `cipher.NewCTR` are modelled over an arbitrary block
encryption function `E : List Nat → List Nat → List Nat` (key, then a
16-byte counter block, to a 16-byte keystream block).  The theorems are
quantified over every such `E`, so they hold in particular for AES-256.
`aes.NewCipher` accepts key lengths 16, 24 and 32 only. -/

/-- Key lengths accepted by Go's `aes.NewCipher`. -/
def validKeySize (n : Nat) : Bool :=
  n = 16 || n = 24 || n = 32

/-- Big-endian counter increment of `cipher.NewCTR`'s counter block,
on the reversed byte list (increment the first byte, carrying while a
byte wraps to zero). -/
def incBytesRev : List Nat → List Nat
  | [] => []
  | b :: rest =>
    if (b + 1) % 256 = 0 then 0 :: incBytesRev rest
    else ((b + 1) % 256) :: rest

/-- Big-endian counter increment (`ctr.refill`'s loop in Go). -/
def incCounter (ctr : List Nat) : List Nat :=
  (incBytesRev ctr.reverse).reverse

/-- Keystream of CTR mode: `n` successive encrypted counter blocks. -/
def ctrKeystream (E : List Nat → List Nat → List Nat)
    (key iv : List Nat) : Nat → List Nat
  | 0 => []
  | n + 1 => E key iv ++ ctrKeystream E key (incCounter iv) n

/-- The CTR stream transform (`stream.XORKeyStream`): XOR the data with
the keystream, block by block.  Encryption and decryption are the same
transform. -/
def ctrXor (E : List Nat → List Nat → List Nat)
    (key iv data : List Nat) : List Nat :=
  List.zipWith (fun a b => a ^^^ b) data
    (ctrKeystream E key iv ((data.length + 15) / 16))

/-- Crypto error taxonomy of the source: bad key length from
`aes.NewCipher`, and the too-short-input check of the decrypt paths. -/
inductive CryptoError where
  | cipherInit
  | truncatedInput
  deriving Repr, DecidableEq

/-- Backend `EncryptImage` (current revision, binary output), after the
base64 decode of the photo: create the cipher (failing on a bad key),
draw a fresh 16-byte IV (passed in as the `iv` argument), run CTR over
the plaintext and return `IV || ciphertext`. -/
def encryptImage (E : List Nat → List Nat → List Nat)
    (imageData key iv : List Nat) : Except CryptoError (List Nat) :=
  if validKeySize key.length then
    .ok (iv ++ ctrXor E key iv imageData)
  else
    .error .cipherInit

/-- Aggregation tool `decryptAES256CTR`: create the cipher (failing on a
bad key), reject inputs shorter than 16 bytes, split the first 16 bytes
as the IV and run the CTR transform over the remainder. -/
def decryptAES256CTR (E : List Nat → List Nat → List Nat)
    (encryptedData key : List Nat) : Except CryptoError (List Nat) :=
  if validKeySize key.length then
    if encryptedData.length < 16 then
      .error .truncatedInput
    else
      .ok (ctrXor E key (encryptedData.take 16) (encryptedData.drop 16))
  else
    .error .cipherInit

/-- Stale backend `DecryptImage` (the crypto.go revision working on
base64 strings), after the base64 decode: when the input is shorter than
16 bytes the source executes `return "", err` where `err` is still `nil`
from the successful decode, so the function returns an EMPTY SUCCESS
rather than an error; only then is the cipher created.  The `.ok []`
branch reproduces that behaviour byte-for-byte. -/
def DecryptImage (E : List Nat → List Nat → List Nat)
    (data key : List Nat) : Except CryptoError (List Nat) :=
  if data.length < 16 then
    .ok []
  else if validKeySize key.length then
    .ok (ctrXor E key (data.take 16) (data.drop 16))
  else
    .error .cipherInit

lemma ctrKeystream_length (E : List Nat → List Nat → List Nat)
    (key : List Nat) (hE : ∀ k b, (E k b).length = 16) :
    ∀ n iv, (ctrKeystream E key iv n).length = 16 * n := by
  intro n
  induction n with
  | zero => intro iv; simp [ctrKeystream]
  | succ m ih =>
      intro iv
      simp [ctrKeystream, hE, ih]
      ring

lemma zipWith_xor_cancel :
    ∀ (data ks : List Nat), data.length ≤ ks.length →
      List.zipWith (fun a b => a ^^^ b)
        (List.zipWith (fun a b => a ^^^ b) data ks) ks = data := by
  intro data
  induction data with
  | nil => intro ks _; simp
  | cons a rest ih =>
      intro ks hlen
      cases ks with
      | nil => simp at hlen
      | cons k krest =>
          simp only [List.length_cons] at hlen
          simp only [List.zipWith_cons_cons]
          rw [Nat.xor_cancel_right, ih krest (by omega)]

lemma ctrXor_length (E : List Nat → List Nat → List Nat)
    (key iv data : List Nat) (hE : ∀ k b, (E k b).length = 16) :
    (ctrXor E key iv data).length = data.length := by
  unfold ctrXor
  rw [List.length_zipWith, ctrKeystream_length E key hE]
  have h := Nat.div_add_mod (data.length + 15) 16
  have h2 : (data.length + 15) % 16 < 16 := Nat.mod_lt _ (by omega)
  omega

lemma ctrXor_ctrXor (E : List Nat → List Nat → List Nat)
    (key iv data : List Nat) (hE : ∀ k b, (E k b).length = 16) :
    ctrXor E key iv (ctrXor E key iv data) = data := by
  have hlen : (ctrXor E key iv data).length = data.length :=
    ctrXor_length E key iv data hE
  show List.zipWith (fun a b => a ^^^ b) (ctrXor E key iv data)
      (ctrKeystream E key iv (((ctrXor E key iv data).length + 15) / 16)) = data
  rw [hlen]
  show List.zipWith (fun a b => a ^^^ b)
      (List.zipWith (fun a b => a ^^^ b) data
        (ctrKeystream E key iv ((data.length + 15) / 16)))
      (ctrKeystream E key iv ((data.length + 15) / 16)) = data
  apply zipWith_xor_cancel
  rw [ctrKeystream_length E key hE]
  have h := Nat.div_add_mod (data.length + 15) 16
  have h2 : (data.length + 15) % 16 < 16 := Nat.mod_lt _ (by omega)
  omega

/-- C4: decrypting the output of `encryptImage` with the same key (the
one derived by SHA-256 from the passphrase stored with the record: both
sides hash the same passphrase with the same function, hence pass the
same `key` here) returns the original plaintext bytes, for every
plaintext length, every 16-byte IV and every block cipher `E` producing
16-byte blocks. -/
theorem encrypt_decrypt_roundtrip
    (E : List Nat → List Nat → List Nat)
    (key iv imageData cipherBytes : List Nat)
    (hE : ∀ k b, (E k b).length = 16)
    (hiv : iv.length = 16)
    (henc : encryptImage E imageData key iv = .ok cipherBytes) :
    decryptAES256CTR E cipherBytes key = .ok imageData := by
  unfold encryptImage at henc
  by_cases hk : validKeySize key.length = true
  · rw [if_pos hk] at henc
    simp only [Except.ok.injEq] at henc
    subst henc
    unfold decryptAES256CTR
    have hct : (ctrXor E key iv imageData).length = imageData.length :=
      ctrXor_length E key iv imageData hE
    have hlen : (iv ++ ctrXor E key iv imageData).length = 16 + imageData.length := by
      simp [hct, hiv]
    rw [if_pos hk]
    have hnotshort : ¬ (iv ++ ctrXor E key iv imageData).length < 16 := by omega
    rw [if_neg hnotshort]
    have htake : (iv ++ ctrXor E key iv imageData).take 16 = iv := by
      rw [← hiv, List.take_left]
    have hdrop : (iv ++ ctrXor E key iv imageData).drop 16 = ctrXor E key iv imageData := by
      rw [← hiv, List.drop_left]
    rw [htake, hdrop, ctrXor_ctrXor E key iv imageData hE]
  · rw [if_neg hk] at henc
    exact Except.noConfusion henc

/-- Witness for C4 at a concrete block function, key, IV and a one-byte
payload. -/
theorem encrypt_decrypt_roundtrip_witness :
    ((∀ k b, ((fun (_ : List Nat) (_ : List Nat) => List.replicate 16 7) k b).length = 16) ∧
     (List.replicate 16 0).length = 16 ∧
     encryptImage (fun _ _ => List.replicate 16 7) [42] (List.replicate 32 1)
       (List.replicate 16 0) = .ok (List.replicate 16 0 ++ [42 ^^^ 7])) ∧
    decryptAES256CTR (fun _ _ => List.replicate 16 7)
      (List.replicate 16 0 ++ [42 ^^^ 7]) (List.replicate 32 1) = .ok [42] :=
  ⟨⟨fun _ _ => rfl, rfl, rfl⟩,
   encrypt_decrypt_roundtrip (fun _ _ => List.replicate 16 7)
     (List.replicate 32 1) (List.replicate 16 0) [42]
     (List.replicate 16 0 ++ [42 ^^^ 7])
     (fun _ _ => rfl) rfl rfl⟩

/-- C5: the tool's decrypt rejects every input shorter than 16 bytes
under a 32-byte key, and the STALE backend DecryptImage instead returns
an empty success for the same inputs (its length guard executes
`return "", err` while `err` is still nil) — the code bug behind the
claim's status.  The second conjunct evaluates the buggy code on the
failing input (the empty byte sequence). -/
theorem decrypt_truncated_rejects
    (E : List Nat → List Nat → List Nat) (encryptedData key : List Nat)
    (hkey : key.length = 32) (hshort : encryptedData.length < 16) :
    decryptAES256CTR E encryptedData key = .error .truncatedInput := by
  unfold decryptAES256CTR
  have hk : validKeySize key.length = true := by
    rw [hkey]; decide
  rw [if_pos hk, if_pos hshort]

/-- Evaluation of the stale backend DecryptImage at the failing input:
a 0-byte input under an all-zero 32-byte key yields a SUCCESS with empty
plaintext, where the tool's decrypt (and the spec) produce
TruncatedInputError. -/
theorem DecryptImage_short_input_succeeds :
    DecryptImage (fun _ _ => List.replicate 16 7) [] (List.replicate 32 0) = .ok [] ∧
    decryptAES256CTR (fun _ _ => List.replicate 16 7) [] (List.replicate 32 0) =
      .error .truncatedInput :=
  ⟨rfl, rfl⟩

/-- Witness for C5 at the empty input and the all-zero 32-byte key. -/
theorem decrypt_truncated_rejects_witness :
    ((List.replicate 32 0 : List Nat).length = 32 ∧ ([] : List Nat).length < 16) ∧
    decryptAES256CTR (fun _ _ => List.replicate 16 7) [] (List.replicate 32 0) =
      .error .truncatedInput :=
  ⟨⟨rfl, by decide⟩,
   decrypt_truncated_rejects (fun _ _ => List.replicate 16 7) []
     (List.replicate 32 0) rfl (by decide)⟩

/-! ## ChartEvaluator

The transition function `handleChoiceSelect` of the chart app's
ChartDisplay component, for the current revision handling
decision/single/multi charts plus the legacy point fallback branch.
JavaScript's `nexts[choiceIndex]`, which is `undefined` out of range, is
modelled by `List.get?`; the `x || 0` and `x || []` reads of the
optional run-state fields become `Option.getD`/the plain list. -/

/-- Evaluator errors: the `throw new Error(...)` sites of
`handleChoiceSelect`.  The single-type message carries the offending
score; the legacy message does not. -/
inductive EvalError where
  | noDiagnosisForScore (point : Int)
  | noDiagnosisForScoreLegacy
  | nextQuestionNotFound
  deriving Repr, DecidableEq

/-- The point value of a selected choice:
`currentQuestion.points ? currentQuestion.points[choiceIndex] : choiceIndex + 1`
(the legacy fallback uses the 1-based choice position). -/
def selectedPointOf (q : IQuestion) (choiceIndex : Nat) : Int :=
  match q.points with
  | some ps => ps.getD choiceIndex 0
  | none => (choiceIndex : Int) + 1

/-- Source `initializePoints`: one zero entry per distinct question category,
in order of first occurrence (the JS `Array.from(new Set(...))`). -/
def initializePoints (chart : IChart) : List IPoint :=
  ((chart.questions.map (fun q => q.category)).eraseDups).map
    (fun category => { category := category, point := 0 })

/-- The multi-branch update
`finalPoints[targetPointIndex].point += selectedPoint` guarded by
`findIndex(p => p.category === question.category) !== -1`: add `delta`
to the FIRST entry of the matching category, leave everything else (and
a list with no matching entry) unchanged. -/
def addPointToCategory (pts : List IPoint) (cat : String) (delta : Int) : List IPoint :=
  match pts with
  | [] => []
  | p :: rest =>
    if p.category = cat then { p with point := p.point + delta } :: rest
    else p :: addPointToCategory rest cat delta

/-- The single-type diagnosis lookup of the evaluator:
`diagnoses.find(d => finalPoint >= d.lower && finalPoint < d.upper)` —
the half-open interval test. -/
def findDiagnosisSingle (diagnoses : List IDiagnosis) (point : Int) : Option IDiagnosis :=
  diagnoses.find? (fun d => decide (d.lower ≤ point ∧ point < d.upper))

/-- The legacy point-type diagnosis lookup:
`diagnoses.find(d => finalPoint >= d.lower && finalPoint <= d.upper)` —
the closed interval test. -/
def findDiagnosisLegacy (diagnoses : List IDiagnosis) (point : Int) : Option IDiagnosis :=
  diagnoses.find? (fun d => decide (d.lower ≤ point ∧ point ≤ d.upper))

/-- Lookup `chartData.questions.find(q => q.id === nextQuestionId)` where the
id may be JS `undefined` (an out-of-range `nexts` read): a strict
equality with `undefined` never holds, so the lookup fails. -/
def lookupQuestion (questions : List IQuestion) : Option Int → Option IQuestion
  | none => none
  | some t => questions.find? (fun q => decide (q.id = t))

/-- Outcome of one accepted transition: the final branch stores the
diagnosis and navigates to the result screen (`completed`); a non-final
branch stores the next question id and displays that question
(`moved`). -/
inductive StepResult where
  | completed (r : IResult)
  | moved (r : IResult) (next : IQuestion)
  deriving Repr, DecidableEq

/-- The run state carried by a step outcome. -/
def StepResult.state : StepResult → IResult
  | .completed r => r
  | .moved r _ => r

/-- The evaluator's transition `handleChoiceSelect(choiceIndex)` on
chart `chartData`, current question `currentQuestion` and run state
`currentResult`.  Each branch mirrors the source: history append, the
type dispatch on `"decision"` / `"single"` / `"multi"` / legacy else,
the half-open single lookup, the closed legacy lookup, the multi
per-category update with lazy zero initialization, and the sequential
`id + 1` progression for score-based charts. -/
def handleChoiceSelect (chartData : IChart) (currentQuestion : IQuestion)
    (currentResult : IResult) (choiceIndex : Nat) :
    Except EvalError StepResult :=
  let newHistory : IHistory :=
    { questionId := currentQuestion.id, choise := (choiceIndex : Int) }
  let updatedHistory := currentResult.history ++ [newHistory]
  let nextId : Option Int := currentQuestion.nexts.get? choiceIndex
  if currentQuestion.isLast then
    let finalPoint := currentResult.currentPoint.getD 0
    let finalPoints := currentResult.currentPoints
    if chartData.type = "decision" then
      .ok (.completed { currentResult with
        diagnosisId := nextId,
        currentPoint := some finalPoint,
        currentPoints := finalPoints,
        history := updatedHistory })
    else if chartData.type = "single" then
      let selectedPoint := selectedPointOf currentQuestion choiceIndex
      let finalPoint := finalPoint + selectedPoint
      match findDiagnosisSingle chartData.diagnoses finalPoint with
      | some diagnosis =>
          .ok (.completed { currentResult with
            diagnosisId := some diagnosis.id,
            currentPoint := some finalPoint,
            currentPoints := finalPoints,
            history := updatedHistory })
      | none => .error (.noDiagnosisForScore finalPoint)
    else if chartData.type = "multi" then
      let finalPoints :=
        if finalPoints.isEmpty then initializePoints chartData else finalPoints
      let selectedPoint := selectedPointOf currentQuestion choiceIndex
      let finalPoints :=
        addPointToCategory finalPoints currentQuestion.category selectedPoint
      .ok (.completed { currentResult with
        diagnosisId := nextId,
        currentPoint := some finalPoint,
        currentPoints := finalPoints,
        history := updatedHistory })
    else
      let selectedPoint := selectedPointOf currentQuestion choiceIndex
      let finalPoint := finalPoint + selectedPoint
      match findDiagnosisLegacy chartData.diagnoses finalPoint with
      | some diagnosis =>
          .ok (.completed { currentResult with
            diagnosisId := some diagnosis.id,
            currentPoint := some finalPoint,
            currentPoints := finalPoints,
            history := updatedHistory })
      | none => .error .noDiagnosisForScoreLegacy
  else
    let updatedPoint := currentResult.currentPoint.getD 0
    let updatedPoints := currentResult.currentPoints
    let step : Option Int × Int × List IPoint :=
      if chartData.type = "decision" then
        (nextId, updatedPoint, updatedPoints)
      else if chartData.type = "single" then
        (some (currentQuestion.id + 1),
         updatedPoint + selectedPointOf currentQuestion choiceIndex,
         updatedPoints)
      else if chartData.type = "multi" then
        let updatedPoints :=
          if updatedPoints.isEmpty then initializePoints chartData else updatedPoints
        (some (currentQuestion.id + 1),
         updatedPoint,
         addPointToCategory updatedPoints currentQuestion.category
           (selectedPointOf currentQuestion choiceIndex))
      else
        (some (currentQuestion.id + 1),
         updatedPoint + selectedPointOf currentQuestion choiceIndex,
         updatedPoints)
    match lookupQuestion chartData.questions step.1 with
    | none => .error .nextQuestionNotFound
    | some nextQuestion =>
        .ok (.moved { currentResult with
          currentQId := some nextQuestion.id,
          currentPoint := some step.2.1,
          currentPoints := step.2.2,
          history := updatedHistory } nextQuestion)


lemma find?_first {α : Type} (p : α → Bool) :
    ∀ (l : List α) (d : α), l.find? p = some d →
      ∃ k, l.get? k = some d ∧ p d = true ∧
        ∀ j d', j < k → l.get? j = some d' → p d' = false := by
  intro l
  induction l with
  | nil => intro d h; simp [List.find?] at h
  | cons a rest ih =>
      intro d h
      by_cases hpa : p a = true
      · rw [List.find?_cons_of_pos _ hpa] at h
        obtain rfl : a = d := by injection h
        exact ⟨0, rfl, hpa, fun j d' hj _ => absurd hj (Nat.not_lt_zero j)⟩
      · rw [List.find?_cons_of_neg _ hpa] at h
        obtain ⟨k, hk, hpd, hfirst⟩ := ih d h
        refine ⟨k + 1, hk, hpd, ?_⟩
        intro j d' hj hget
        cases j with
        | zero =>
            obtain rfl : a = d' := by injection hget
            exact Bool.eq_false_iff.mpr hpa
        | succ j' =>
            exact hfirst j' d' (Nat.lt_of_succ_lt_succ hj) hget

lemma find?_decide_characterization (l : List IDiagnosis) (P : IDiagnosis → Prop)
    [DecidablePred P] :
    (∀ d, l.find? (fun x => decide (P x)) = some d →
      ∃ k, l.get? k = some d ∧ P d ∧
        ∀ j d', j < k → l.get? j = some d' → ¬ P d') ∧
    (l.find? (fun x => decide (P x)) = none ↔ ∀ d ∈ l, ¬ P d) := by
  constructor
  · intro d h
    obtain ⟨k, hk, hpd, hfirst⟩ := find?_first _ _ _ h
    refine ⟨k, hk, of_decide_eq_true hpd, ?_⟩
    intro j d' hj hget
    exact of_decide_eq_false (hfirst j d' hj hget)
  · rw [List.find?_eq_none]
    constructor
    · intro h d hd
      have := h d hd
      simpa using this
    · intro h d hd
      simpa using h d hd

/-- C1: on a terminal question of a single-type chart the evaluator
selects the FIRST diagnosis (in list order) whose HALF-OPEN interval
`lower ≤ score < upper` contains the final score (so a score equal to
`lower` matches while a score equal to `upper` does not), and fails with
the score-carrying lookup error exactly when no diagnosis matches; on a
legacy point-type chart the interval test is instead CLOSED,
`lower ≤ score ≤ upper`, so a score equal to `upper` does match. -/
theorem single_halfOpen_legacy_closed
    (chart : IChart) (q : IQuestion) (r : IResult) (choiceIndex : Nat)
    (hlast : q.isLast = true) :
    (chart.type = "single" →
      (∀ res, handleChoiceSelect chart q r choiceIndex = .ok res →
        ∃ r' k d, res = .completed r' ∧ chart.diagnoses.get? k = some d ∧
          r'.diagnosisId = some d.id ∧
          (d.lower ≤ r.currentPoint.getD 0 + selectedPointOf q choiceIndex ∧
           r.currentPoint.getD 0 + selectedPointOf q choiceIndex < d.upper) ∧
          ∀ j d', j < k → chart.diagnoses.get? j = some d' →
            ¬(d'.lower ≤ r.currentPoint.getD 0 + selectedPointOf q choiceIndex ∧
              r.currentPoint.getD 0 + selectedPointOf q choiceIndex < d'.upper)) ∧
      (handleChoiceSelect chart q r choiceIndex =
          .error (.noDiagnosisForScore (r.currentPoint.getD 0 + selectedPointOf q choiceIndex)) ↔
        ∀ d ∈ chart.diagnoses,
          ¬(d.lower ≤ r.currentPoint.getD 0 + selectedPointOf q choiceIndex ∧
            r.currentPoint.getD 0 + selectedPointOf q choiceIndex < d.upper))) ∧
    (chart.type = "point" →
      (∀ res, handleChoiceSelect chart q r choiceIndex = .ok res →
        ∃ r' k d, res = .completed r' ∧ chart.diagnoses.get? k = some d ∧
          r'.diagnosisId = some d.id ∧
          (d.lower ≤ r.currentPoint.getD 0 + selectedPointOf q choiceIndex ∧
           r.currentPoint.getD 0 + selectedPointOf q choiceIndex ≤ d.upper) ∧
          ∀ j d', j < k → chart.diagnoses.get? j = some d' →
            ¬(d'.lower ≤ r.currentPoint.getD 0 + selectedPointOf q choiceIndex ∧
              r.currentPoint.getD 0 + selectedPointOf q choiceIndex ≤ d'.upper)) ∧
      (handleChoiceSelect chart q r choiceIndex = .error .noDiagnosisForScoreLegacy ↔
        ∀ d ∈ chart.diagnoses,
          ¬(d.lower ≤ r.currentPoint.getD 0 + selectedPointOf q choiceIndex ∧
            r.currentPoint.getD 0 + selectedPointOf q choiceIndex ≤ d.upper))) := by
  constructor
  · intro htype
    have hchar := find?_decide_characterization chart.diagnoses
      (fun d => d.lower ≤ r.currentPoint.getD 0 + selectedPointOf q choiceIndex ∧
        r.currentPoint.getD 0 + selectedPointOf q choiceIndex < d.upper)
    constructor
    · intro res hres
      simp [handleChoiceSelect, htype, hlast] at hres
      cases hfind : findDiagnosisSingle chart.diagnoses
          (r.currentPoint.getD 0 + selectedPointOf q choiceIndex) with
      | none => rw [hfind] at hres; exact Except.noConfusion hres
      | some d =>
          rw [hfind] at hres
          injection hres with h
          subst h
          obtain ⟨k, hk, hpd, hfirst⟩ := hchar.1 d hfind
          exact ⟨_, k, d, rfl, hk, rfl, hpd, hfirst⟩
    · constructor
      · intro h
        simp [handleChoiceSelect, htype, hlast] at h
        cases hfind : findDiagnosisSingle chart.diagnoses
            (r.currentPoint.getD 0 + selectedPointOf q choiceIndex) with
        | none => exact hchar.2.mp hfind
        | some d =>
            rw [hfind] at h
            exact Except.noConfusion h
      · intro hall
        have hnone : findDiagnosisSingle chart.diagnoses
            (r.currentPoint.getD 0 + selectedPointOf q choiceIndex) = none :=
          hchar.2.mpr hall
        simp [handleChoiceSelect, htype, hlast, hnone]
  · intro htype
    have hchar := find?_decide_characterization chart.diagnoses
      (fun d => d.lower ≤ r.currentPoint.getD 0 + selectedPointOf q choiceIndex ∧
        r.currentPoint.getD 0 + selectedPointOf q choiceIndex ≤ d.upper)
    constructor
    · intro res hres
      simp [handleChoiceSelect, htype, hlast] at hres
      cases hfind : findDiagnosisLegacy chart.diagnoses
          (r.currentPoint.getD 0 + selectedPointOf q choiceIndex) with
      | none => rw [hfind] at hres; exact Except.noConfusion hres
      | some d =>
          rw [hfind] at hres
          injection hres with h
          subst h
          obtain ⟨k, hk, hpd, hfirst⟩ := hchar.1 d hfind
          exact ⟨_, k, d, rfl, hk, rfl, hpd, hfirst⟩
    · constructor
      · intro h
        simp [handleChoiceSelect, htype, hlast] at h
        cases hfind : findDiagnosisLegacy chart.diagnoses
            (r.currentPoint.getD 0 + selectedPointOf q choiceIndex) with
        | none => exact hchar.2.mp hfind
        | some d =>
            rw [hfind] at h
            exact Except.noConfusion h
      · intro hall
        have hnone : findDiagnosisLegacy chart.diagnoses
            (r.currentPoint.getD 0 + selectedPointOf q choiceIndex) = none :=
          hchar.2.mpr hall
        simp [handleChoiceSelect, htype, hlast, hnone]

/-- Witness fixtures for the evaluator claims: a terminal single-type
question, a starting run state, and a small chart. -/
def qW : IQuestion :=
  { id := 1, isLast := true, category := "default", sentence := "Q",
    choises := ["yes", "no"], nexts := [2, 2], points := some [1, 2] }

def rW : IResult :=
  { chartName := "c", chartType := "single", timestamp := "t", photo := "",
    currentQId := some 1, currentPoint := some 0, currentPoints := [],
    diagnosisId := none, history := [] }

def cW1 : IChart :=
  { name := "c", type := "single", questions := [qW],
    diagnoses := [{ id := 1, category := "default", lower := 5, upper := 7, sentence := "A" }] }

/-- Witness for C1: on the concrete single chart `cW1` whose only
diagnosis covers `[5,7)`, the final score 1 matches nothing, so the
evaluator fails with the score-carrying error (the half-open single
branch of the theorem applied at a concrete input). -/
theorem single_halfOpen_legacy_closed_witness :
    qW.isLast = true ∧ cW1.type = "single" ∧
    handleChoiceSelect cW1 qW rW 0 =
      .error (.noDiagnosisForScore (rW.currentPoint.getD 0 + selectedPointOf qW 0)) :=
  ⟨rfl, rfl,
   ((single_halfOpen_legacy_closed cW1 qW rW 0 rfl).1 rfl).2.mpr (by decide)⟩

/-- C2: on a terminal question of a multi-type chart the transition
always succeeds, the completed run's diagnosis id is exactly
`nexts[choiceIndex]` of that question (JS `undefined`, i.e. `none`, when
out of range), and the whole transition is INDEPENDENT of the chart's
diagnoses list — no point-range lookup over the diagnoses takes part. -/
theorem multi_isLast_uses_nexts
    (chart : IChart) (q : IQuestion) (r : IResult) (choiceIndex : Nat)
    (htype : chart.type = "multi") (hlast : q.isLast = true) :
    (∃ r', handleChoiceSelect chart q r choiceIndex = .ok (.completed r') ∧
      r'.diagnosisId = q.nexts.get? choiceIndex) ∧
    ∀ ds, handleChoiceSelect { chart with diagnoses := ds } q r choiceIndex =
      handleChoiceSelect chart q r choiceIndex := by
  constructor
  · refine ⟨{ r with
      diagnosisId := q.nexts.get? choiceIndex,
      currentPoint := some (r.currentPoint.getD 0),
      currentPoints := addPointToCategory
        (if r.currentPoints.isEmpty then initializePoints chart else r.currentPoints)
        q.category (selectedPointOf q choiceIndex),
      history := r.history ++ [{ questionId := q.id, choise := (choiceIndex : Int) }] },
      ?_, rfl⟩
    simp [handleChoiceSelect, htype, hlast]
  · intro ds
    simp [handleChoiceSelect, htype, hlast, initializePoints]

/-- Multi-type witness fixtures: two categories "A" and "B", the first
question in category "A" with points `[2,3]`. -/
def qM1 : IQuestion :=
  { id := 1, isLast := false, category := "A", sentence := "Q1",
    choises := ["yes", "no"], nexts := [2, 2], points := some [2, 3] }

def qM2 : IQuestion :=
  { id := 2, isLast := true, category := "B", sentence := "Q2",
    choises := ["yes", "no"], nexts := [1, 2], points := some [1, 1] }

def cM : IChart :=
  { name := "m", type := "multi", questions := [qM1, qM2],
    diagnoses := [{ id := 1, category := "A", lower := 0, upper := 5, sentence := "DA" }] }

def rM : IResult :=
  { chartName := "m", chartType := "multi", timestamp := "t", photo := "",
    currentQId := some 1, currentPoint := some 0, currentPoints := [],
    diagnosisId := none, history := [] }

/-- Witness for C2 on the terminal multi question `qM2`. -/
theorem multi_isLast_uses_nexts_witness :
    cM.type = "multi" ∧ qM2.isLast = true ∧
    ((∃ r', handleChoiceSelect cM qM2 rM 1 = .ok (.completed r') ∧
        r'.diagnosisId = qM2.nexts.get? 1) ∧
     ∀ ds, handleChoiceSelect { cM with diagnoses := ds } qM2 rM 1 =
        handleChoiceSelect cM qM2 rM 1) :=
  ⟨rfl, rfl, multi_isLast_uses_nexts cM qM2 rM 1 rfl rfl⟩

lemma addPointToCategory_length (cat : String) (delta : Int) :
    ∀ (pts : List IPoint), (addPointToCategory pts cat delta).length = pts.length := by
  intro pts
  induction pts with
  | nil => rfl
  | cons p rest ih =>
      by_cases h : p.category = cat
      · simp [addPointToCategory, h]
      · simp [addPointToCategory, h, ih]

lemma addPointToCategory_get?_other (cat : String) (delta : Int) :
    ∀ (pts : List IPoint) (k : Nat) (e : IPoint), pts.get? k = some e →
      e.category ≠ cat → (addPointToCategory pts cat delta).get? k = some e := by
  intro pts
  induction pts with
  | nil => intro k e h _; simp at h
  | cons p rest ih =>
      intro k e h hne
      by_cases hp : p.category = cat
      · cases k with
        | zero =>
            obtain rfl : p = e := by simpa using h
            exact absurd hp hne
        | succ k' =>
            simp only [addPointToCategory, if_pos hp, List.get?_cons_succ]
            simpa using h
      · cases k with
        | zero =>
            simp only [addPointToCategory, if_neg hp]
            simpa using h
        | succ k' =>
            simp only [addPointToCategory, if_neg hp, List.get?_cons_succ]
            exact ih k' e (by simpa using h) hne

lemma addPointToCategory_get?_firstMatch (cat : String) (delta : Int) :
    ∀ (pts : List IPoint) (k : Nat) (e : IPoint), pts.get? k = some e →
      e.category = cat →
      (∀ j e', j < k → pts.get? j = some e' → e'.category ≠ cat) →
      (addPointToCategory pts cat delta).get? k =
        some { category := e.category, point := e.point + delta } := by
  intro pts
  induction pts with
  | nil => intro k e h _ _; simp at h
  | cons p rest ih =>
      intro k e h he hfirst
      cases k with
      | zero =>
          obtain rfl : p = e := by simpa using h
          simp only [addPointToCategory, if_pos he]
          rfl
      | succ k' =>
          have hp : p.category ≠ cat :=
            hfirst 0 p (Nat.succ_pos k') rfl
          simp only [addPointToCategory, if_neg hp, List.get?_cons_succ]
          exact ih k' e (by simpa using h) he
            (fun j e' hj hget => hfirst (j + 1) e' (Nat.succ_lt_succ hj) (by simpa using hget))

lemma initializePoints_zero (chart : IChart) :
    ∀ e ∈ initializePoints chart, e.point = 0 := by
  intro e he
  unfold initializePoints at he
  obtain ⟨c, _, rfl⟩ := List.mem_map.mp he
  rfl

/-- C3: answering any choice on a multi-type chart changes only the
FIRST per-category entry matching the question's category, adding that
choice's point value (`points[choiceIndex]`, or `choiceIndex + 1` when
the points array is absent — `selectedPointOf`); every entry of another
category keeps its prior value, the prior list being the lazily
initialized all-zero per-category list when it was empty. -/
theorem multi_updates_only_category
    (chart : IChart) (q : IQuestion) (r : IResult) (choiceIndex : Nat) (res : StepResult)
    (htype : chart.type = "multi")
    (hok : handleChoiceSelect chart q r choiceIndex = .ok res) :
    (res.state.currentPoints.length =
      (if r.currentPoints.isEmpty then initializePoints chart else r.currentPoints).length) ∧
    (∀ k e, (if r.currentPoints.isEmpty then initializePoints chart else r.currentPoints).get? k = some e →
      e.category ≠ q.category → res.state.currentPoints.get? k = some e) ∧
    (∀ k e, (if r.currentPoints.isEmpty then initializePoints chart else r.currentPoints).get? k = some e →
      e.category = q.category →
      (∀ j e', j < k →
        (if r.currentPoints.isEmpty then initializePoints chart else r.currentPoints).get? j = some e' →
        e'.category ≠ q.category) →
      res.state.currentPoints.get? k =
        some { category := e.category, point := e.point + selectedPointOf q choiceIndex }) ∧
    (∀ e ∈ initializePoints chart, e.point = 0) := by
  have hpts : res.state.currentPoints =
      addPointToCategory
        (if r.currentPoints.isEmpty then initializePoints chart else r.currentPoints)
        q.category (selectedPointOf q choiceIndex) := by
    cases hl : q.isLast with
    | true =>
        simp [handleChoiceSelect, htype, hl] at hok
        rw [← hok]
        simp [StepResult.state]
    | false =>
        simp [handleChoiceSelect, htype, hl] at hok
        cases hlk : lookupQuestion chart.questions (some (q.id + 1)) with
        | none => rw [hlk] at hok; exact Except.noConfusion hok
        | some nq =>
            rw [hlk] at hok
            injection hok with h
            rw [← h]
            simp [StepResult.state]
  refine ⟨?_, ?_, ?_, initializePoints_zero chart⟩
  · rw [hpts]; exact addPointToCategory_length _ _ _
  · intro k e hk hne
    rw [hpts]
    exact addPointToCategory_get?_other _ _ _ k e hk hne
  · intro k e hk he hfirst
    rw [hpts]
    exact addPointToCategory_get?_firstMatch _ _ _ k e hk he hfirst

instance {e a : Type} [DecidableEq e] [DecidableEq a] : DecidableEq (Except e a) :=
  fun x y =>
    match x, y with
    | .ok v, .ok w =>
        if h : v = w then isTrue (by rw [h]) else isFalse (fun hc => h (by injection hc))
    | .error v, .error w =>
        if h : v = w then isTrue (by rw [h]) else isFalse (fun hc => h (by injection hc))
    | .ok _, .error _ => isFalse (fun hc => Except.noConfusion hc)
    | .error _, .ok _ => isFalse (fun hc => Except.noConfusion hc)

/-- The step produced by answering choice 0 on `qM1` in `rM`. -/
def resM : StepResult :=
  .moved { chartName := "m", chartType := "multi", timestamp := "t", photo := "",
           currentQId := some 2, currentPoint := some 0,
           currentPoints := [{ category := "A", point := 2 }, { category := "B", point := 0 }],
           diagnosisId := none, history := [{ questionId := 1, choise := 0 }] } qM2

/-- Witness for C3 on the concrete multi chart `cM`: answering choice 0
on the category-"A" question `qM1`. -/
theorem multi_updates_only_category_witness :
    (cM.type = "multi" ∧ handleChoiceSelect cM qM1 rM 0 = .ok resM) ∧
    ((resM.state.currentPoints.length =
      (if rM.currentPoints.isEmpty then initializePoints cM else rM.currentPoints).length) ∧
    (∀ k e, (if rM.currentPoints.isEmpty then initializePoints cM else rM.currentPoints).get? k = some e →
      e.category ≠ qM1.category → resM.state.currentPoints.get? k = some e) ∧
    (∀ k e, (if rM.currentPoints.isEmpty then initializePoints cM else rM.currentPoints).get? k = some e →
      e.category = qM1.category →
      (∀ j e', j < k →
        (if rM.currentPoints.isEmpty then initializePoints cM else rM.currentPoints).get? j = some e' →
        e'.category ≠ qM1.category) →
      resM.state.currentPoints.get? k =
        some { category := e.category, point := e.point + selectedPointOf qM1 0 }) ∧
    (∀ e ∈ initializePoints cM, e.point = 0)) :=
  ⟨⟨rfl, by decide⟩, multi_updates_only_category cM qM1 rM 0 resM rfl (by decide)⟩

/-! ## ResultAggregator (offline tool)

`getResultText` of the tool's csv module, single/multi case, for the
stored bare-integer point value (the branch entered when the stored
`Point` JSON unmarshals as a single int): scan the diagnoses in list
order and return the sentence of the first one whose CLOSED interval
`Lower ≤ p ≤ Upper` contains the stored point, else an error. -/

/-- Aggregator error for the single-branch lookup,
`ポイント %d に対応する診断結果が見つかりません`. -/
inductive AggError where
  | noDiagnosisForPoint (point : Int)
  deriving Repr, DecidableEq

/-- Tool `getResultText`, `"single", "multi"` case, bare-integer stored
point: the Go loop `for _, diagnosis := range chart.Diagnoses { if
singlePoint >= diagnosis.Lower && singlePoint <= diagnosis.Upper {
return diagnosis.Sentence } }`. -/
def getResultTextSinglePoint (chart : IChart) (singlePoint : Int) : Except AggError String :=
  match chart.diagnoses.find?
      (fun d => decide (singlePoint ≥ d.lower ∧ singlePoint ≤ d.upper)) with
  | some diagnosis => .ok diagnosis.sentence
  | none => .error (.noDiagnosisForPoint singlePoint)

/-- Counterexample chart for C6: two adjacent single-type ranges
`[0,10)` and `[10,20)` in the evaluator's half-open reading. -/
def cB : IChart :=
  { name := "b", type := "single", questions := [qW],
    diagnoses :=
      [{ id := 1, category := "default", lower := 0, upper := 10, sentence := "A" },
       { id := 2, category := "default", lower := 10, upper := 20, sentence := "B" }] }

/-- Counterexample to C6 as stated: at the boundary score 10 the
evaluator's single-type rule (half-open, `findDiagnosisSingle`, the
very lookup inside `handleChoiceSelect`) selects diagnosis 2 with
sentence "B", while the aggregator's re-derivation (closed interval)
returns sentence "A" of diagnosis 1 — they do NOT agree at this range
boundary. -/
theorem aggregator_evaluator_disagree_at_boundary :
    findDiagnosisSingle cB.diagnoses 10 =
      some { id := 2, category := "default", lower := 10, upper := 20, sentence := "B" } ∧
    getResultTextSinglePoint cB 10 = .ok "A" ∧
    ("A" : String) ≠ "B" := by
  refine ⟨by decide, by decide, by decide⟩

lemma find?_congr_mem {a : Type} (p q : a → Bool) :
    ∀ (l : List a), (∀ x ∈ l, p x = q x) → l.find? p = l.find? q := by
  intro l
  induction l with
  | nil => intro _; rfl
  | cons x rest ih =>
      intro h
      have hx := h x (List.mem_cons_self x rest)
      by_cases hp : p x = true
      · rw [List.find?_cons_of_pos _ hp, List.find?_cons_of_pos _ (hx ▸ hp)]
      · have hq : ¬ q x = true := by rw [← hx]; exact hp
        rw [List.find?_cons_of_neg _ hp, List.find?_cons_of_neg _ hq]
        exact ih (fun y hy => h y (List.mem_cons_of_mem x hy))

/-- C6 amended: away from every diagnosis's `upper` bound the closed
and half-open tests coincide diagnosis by diagnosis, so the aggregator's
re-derived text is exactly the sentence of the diagnosis the evaluator's
single-type rule selects (and the two fail together).  At a score equal
to some diagnosis's `upper` they can disagree
(`aggregator_evaluator_disagree_at_boundary`). -/
theorem aggregator_matches_evaluator_off_upper_bounds
    (chart : IChart) (p : Int)
    (h : ∀ d ∈ chart.diagnoses, p ≠ d.upper) :
    getResultTextSinglePoint chart p =
      (match findDiagnosisSingle chart.diagnoses p with
       | some d => .ok d.sentence
       | none => .error (.noDiagnosisForPoint p)) := by
  have hfind : chart.diagnoses.find?
      (fun d => decide (p ≥ d.lower ∧ p ≤ d.upper)) =
      chart.diagnoses.find? (fun d => decide (d.lower ≤ p ∧ p < d.upper)) := by
    apply find?_congr_mem
    intro d hd
    have hne := h d hd
    by_cases hcl : d.lower ≤ p ∧ p < d.upper
    · have : p ≥ d.lower ∧ p ≤ d.upper := ⟨hcl.1, le_of_lt hcl.2⟩
      simp [this, hcl]
    · have : ¬(p ≥ d.lower ∧ p ≤ d.upper) := by
        intro hc
        exact hcl ⟨hc.1, lt_of_le_of_ne hc.2 hne⟩
      simp [this, hcl]
  unfold getResultTextSinglePoint findDiagnosisSingle
  rw [hfind]

/-- Witness for the amended C6 at score 5 on `cB` (5 differs from both
upper bounds). -/
theorem aggregator_matches_evaluator_off_upper_bounds_witness :
    (∀ d ∈ cB.diagnoses, (5 : Int) ≠ d.upper) ∧
    getResultTextSinglePoint cB 5 =
      (match findDiagnosisSingle cB.diagnoses 5 with
       | some d => .ok d.sentence
       | none => .error (.noDiagnosisForPoint 5)) :=
  ⟨by decide, aggregator_matches_evaluator_off_upper_bounds cB 5 (by decide)⟩

/-! ## ChartCSVCompiler

`parseCSVToChart` of the setting app's csv module (current revision,
decision/single/multi).  Strings are processed exactly as the source
does: BOM strip, split on CRLF/CR/LF, comma split with per-field trim,
JS `parseInt(s, 10)` semantics (optional sign, leading digits, anything
after the digits ignored, no digits at all gives NaN). -/

/-- Split the text into lines on CRLF, CR or LF
(`cleanText.split(/\r\n|\r|\n/)`). -/
def splitLinesAux : List Char → List Char → List String
  | [], acc => [String.mk acc.reverse]
  | '\r' :: '\n' :: rest, acc => String.mk acc.reverse :: splitLinesAux rest []
  | '\r' :: rest, acc => String.mk acc.reverse :: splitLinesAux rest []
  | '\n' :: rest, acc => String.mk acc.reverse :: splitLinesAux rest []
  | c :: rest, acc => splitLinesAux rest (c :: acc)

/-- Source `parseCSVLines`: strip a leading BOM, then split into lines. -/
def parseCSVLines (csvText : String) : List String :=
  let cleanText :=
    match csvText.data with
    | '﻿' :: rest => rest
    | cs => cs
  splitLinesAux cleanText []

/-- Whitespace trim on a character list (both ends), the semantics of
the JS `trim()` calls of the source. -/
def trimChars (cs : List Char) : List Char :=
  ((cs.dropWhile Char.isWhitespace).reverse.dropWhile Char.isWhitespace).reverse

/-- JS `s.trim()`. -/
def jsTrim (s : String) : String :=
  String.mk (trimChars s.data)

/-- Split one line on commas (`line.split(',')`). -/
def splitOnCommaAux : List Char → List Char → List String
  | [], acc => [String.mk acc.reverse]
  | ',' :: rest, acc => String.mk acc.reverse :: splitOnCommaAux rest []
  | c :: rest, acc => splitOnCommaAux rest (c :: acc)

/-- Source `parseCSVLine`: split on commas and trim every field. -/
def parseCSVLine (line : String) : List String :=
  (splitOnCommaAux line.data []).map jsTrim

/-- Value of a digit run (the digits JS `parseInt` consumes). -/
def digitsValue (cs : List Char) : Nat :=
  cs.foldl (fun acc c => 10 * acc + (c.toNat - '0'.toNat)) 0

/-- JS `parseInt(s, 10)`: skip leading whitespace, read an optional
sign, consume leading digits, ignore the rest; `NaN` (here `none`) when
no digit was consumed. -/
def jsParseInt (s : String) : Option Int :=
  let body : List Char → Option Int := fun cs =>
    let ds := cs.takeWhile Char.isDigit
    if ds.isEmpty then none else some ((digitsValue ds : Nat) : Int)
  match trimChars s.data with
  | '-' :: rest => (body rest).map (fun n => -n)
  | '+' :: rest => body rest
  | cs => body cs

/-- Structured per-row validation failure, mirroring the `throw new
Error(...)` messages of `parseQuestionRow` / `parseDiagnosisRow`. -/
inductive RowError where
  | nextNotNumeric (choiceNo : Nat)
  | nextMissing (choiceNo : Nat)
  | invalidQuestionId
  | noQuestionSentence
  | tooFewChoices
  | choicesNextsMismatch
  | lowerNotNumeric
  | upperNotNumeric
  | invalidDiagnosisId
  | noDiagnosisSentence
  | noChartName
  | invalidChartType
  deriving Repr, DecidableEq

/-- An accumulated validation entry (`errors.push({row, field, message})`). -/
structure ValidationError where
  row : Nat
  field : String
  err : RowError
  deriving Repr, DecidableEq

/-- Top-level entry for the name/type header checks, which carry no
RowError of their own; reuse the structure with dedicated field tags. -/
inductive CompileError where
  | tooFewLines
  | questionsSectionMissing
  | diagnosesSectionMissing
  | formatErrors (errs : List ValidationError)
  | noQuestions
  | noDiagnoses
  deriving Repr, DecidableEq

/-- Pad the field list with empty strings up to `n` entries
(the `while (fields.length < n) fields.push('')` loops). -/
def padFields (fields : List String) (n : Nat) : List String :=
  fields ++ List.replicate (n - fields.length) ""

/-- The choice-collecting loop of `parseQuestionRow` over `i = 0..4`:
for each populated choice the populated transition field is required and
must parse; decision rows push it into `nexts`, score rows push it into
`points` and push `id + 1` into `nexts`. -/
def qRowLoop (fields : List String) (chartType : String) (idVal : Int) :
    List Nat → Except RowError (List String × List Int × List Int)
  | [] => .ok ([], [], [])
  | i :: is =>
    let choiceText := jsTrim (fields.getD (4 + i) "")
    let nextIdText := jsTrim (fields.getD (9 + i) "")
    if choiceText ≠ "" then
      if nextIdText ≠ "" then
        match jsParseInt nextIdText with
        | none => .error (.nextNotNumeric (i + 1))
        | some nextId =>
            match qRowLoop fields chartType idVal is with
            | .error e => .error e
            | .ok (cs, ns, ps) =>
                if chartType = "decision" then
                  .ok (choiceText :: cs, nextId :: ns, ps)
                else
                  .ok (choiceText :: cs, (idVal + 1) :: ns, nextId :: ps)
      else .error (.nextMissing (i + 1))
    else qRowLoop fields chartType idVal is

/-- Source `parseQuestionRow(fields, chartType)`: pad to 14 fields, read id /
isLast / category / sentence, run the choice loop, then validate id,
sentence and choice counts; `points` is attached only for single/multi
rows with a non-empty collected points list. -/
def parseQuestionRow (fields : List String) (chartType : String) :
    Except RowError IQuestion :=
  let fields := padFields fields 14
  let id? := jsParseInt (fields.getD 0 "")
  let idVal := id?.getD 0
  let isLast := fields.getD 1 "" = "1"
  let category := if fields.getD 2 "" = "" then "default" else fields.getD 2 ""
  let sentence := fields.getD 3 ""
  match qRowLoop fields chartType idVal [0, 1, 2, 3, 4] with
  | .error e => .error e
  | .ok (choises, nexts, points) =>
      if id?.isNone ∨ idVal < 1 then .error .invalidQuestionId
      else if sentence = "" then .error .noQuestionSentence
      else if choises.length < 2 then .error .tooFewChoices
      else if choises.length ≠ nexts.length then .error .choicesNextsMismatch
      else
        .ok { id := idVal, isLast := isLast, category := category,
              sentence := sentence, choises := choises, nexts := nexts,
              points :=
                if (chartType = "single" ∨ chartType = "multi") ∧ points.length > 0
                then some points else none }

/-- Source `parseDiagnosisRow(fields, chartType)`: pad to 5 fields; lower and
upper are read (and must parse when populated) only for single/multi
charts; then validate id and sentence. -/
def parseDiagnosisRow (fields : List String) (chartType : String) :
    Except RowError IDiagnosis :=
  let fields := padFields fields 5
  let id? := jsParseInt (fields.getD 0 "")
  let idVal := id?.getD 0
  let category := if fields.getD 1 "" = "" then "default" else fields.getD 1 ""
  let sentence := fields.getD 4 ""
  let lowerText := jsTrim (fields.getD 2 "")
  let upperText := jsTrim (fields.getD 3 "")
  let lowerRes : Except RowError Int :=
    if chartType = "single" ∨ chartType = "multi" then
      if lowerText ≠ "" then
        match jsParseInt lowerText with
        | none => .error .lowerNotNumeric
        | some v => .ok v
      else .ok 0
    else .ok 0
  let upperRes : Except RowError Int :=
    if chartType = "single" ∨ chartType = "multi" then
      if upperText ≠ "" then
        match jsParseInt upperText with
        | none => .error .upperNotNumeric
        | some v => .ok v
      else .ok 0
    else .ok 0
  match lowerRes with
  | .error e => .error e
  | .ok lower =>
      match upperRes with
      | .error e => .error e
      | .ok upper =>
          if id?.isNone ∨ idVal < 1 then .error .invalidDiagnosisId
          else if sentence = "" then .error .noDiagnosisSentence
          else
            .ok { id := idVal, category := category, lower := lower,
                  upper := upper, sentence := sentence }

/-- The questions loop of `parseCSVToChart`: consume non-blank lines,
skipping rows whose first field is the header sentinel, parsing the rest
and accumulating per-row failures; stops at the first blank line (or the
end), returning the questions, the accumulated errors, the remaining
lines and the next 0-based line index. -/
def parseQuestionsLoop (chartType : String) :
    List String → Nat → List IQuestion × List ValidationError × List String × Nat
  | [], idx => ([], [], [], idx)
  | line :: rest, idx =>
    if jsTrim line = "" then ([], [], line :: rest, idx)
    else
      let fields := parseCSVLine line
      if jsTrim (fields.headD "") = "設問ID" then
        parseQuestionsLoop chartType rest (idx + 1)
      else
        match parseQuestionRow fields chartType with
        | .ok q =>
            let (qs, errs, rem, idx') := parseQuestionsLoop chartType rest (idx + 1)
            (q :: qs, errs, rem, idx')
        | .error e =>
            let (qs, errs, rem, idx') := parseQuestionsLoop chartType rest (idx + 1)
            (qs, { row := idx + 1, field := "設問行", err := e } :: errs, rem, idx')

/-- The diagnoses loop of `parseCSVToChart`: consume every remaining
line, skipping blanks and the header sentinel, parsing the rest and
accumulating per-row failures. -/
def parseDiagnosesLoop (chartType : String) :
    List String → Nat → List IDiagnosis × List ValidationError
  | [], _ => ([], [])
  | line :: rest, idx =>
    if jsTrim line = "" then parseDiagnosesLoop chartType rest (idx + 1)
    else
      let fields := parseCSVLine line
      if jsTrim (fields.headD "") = "診断結果ID" then
        parseDiagnosesLoop chartType rest (idx + 1)
      else
        match parseDiagnosisRow fields chartType with
        | .ok d =>
            let (ds, errs) := parseDiagnosesLoop chartType rest (idx + 1)
            (d :: ds, errs)
        | .error e =>
            let (ds, errs) := parseDiagnosesLoop chartType rest (idx + 1)
            (ds, { row := idx + 1, field := "診断結果行", err := e } :: errs)

/-- Count of leading blank lines (the blank-skipping while loops). -/
def countBlank : List String → Nat
  | [] => 0
  | line :: rest => if jsTrim line = "" then countBlank rest + 1 else 0

/-- Source `parseCSVToChart(csvText)`: the whole single-pass compiler.  Header
(2 lines, name and type, failures accumulated), blank skip, hard failure
when no questions region remains, unconditional header-line skip,
questions loop, blank skip, hard failure when no diagnoses region
remains, diagnoses loop, then the aggregated `FormatError` if any row
failed and the final non-emptiness checks. -/
def parseCSVToChart (csvText : String) : Except CompileError IChart :=
  let lines := parseCSVLines csvText
  if lines.length < 5 then .error .tooFewLines
  else
    let chartName := jsTrim (lines.getD 0 "")
    let chartType := jsTrim (lines.getD 1 "")
    let headerErrs : List ValidationError :=
      (if chartName = "" then
        [{ row := 1, field := "チャート名", err := .noChartName }] else []) ++
      (if chartType ≠ "decision" ∧ chartType ≠ "single" ∧ chartType ≠ "multi" then
        [{ row := 2, field := "チャートタイプ", err := .invalidChartType }] else [])
    let afterHeader := lines.drop 2
    let nblank := countBlank afterHeader
    let atQuestions := afterHeader.drop nblank
    if atQuestions.isEmpty then .error .questionsSectionMissing
    else
      let (questions, qErrs, rem, remIdx) :=
        parseQuestionsLoop chartType (atQuestions.drop 1) (2 + nblank + 1)
      let nblank2 := countBlank rem
      let atDiagnoses := rem.drop nblank2
      if atDiagnoses.isEmpty then .error .diagnosesSectionMissing
      else
        let (diagnoses, dErrs) :=
          parseDiagnosesLoop chartType atDiagnoses (remIdx + nblank2)
        let errs := headerErrs ++ qErrs ++ dErrs
        if ¬ errs.isEmpty then .error (.formatErrors errs)
        else if questions.isEmpty then .error .noQuestions
        else if diagnoses.isEmpty then .error .noDiagnoses
        else .ok { name := chartName, type := chartType,
                   questions := questions, diagnoses := diagnoses }

/-- C7: when nothing non-blank remains after the questions region, the
compiler aborts with the structural diagnoses-section error — whatever
validation failures the earlier question rows (or the header) have
accumulated, since the aggregate FormatError is only raised after both
section scans finish.  The hypotheses restate, through the compiler's
own scanning functions, that the text has at least 5 lines, a questions
region, and no non-blank line after it. -/
theorem missing_diagnoses_section_is_structural
    (csvText : String)
    (h5 : 5 ≤ (parseCSVLines csvText).length)
    (hq : ((parseCSVLines csvText).drop 2).drop
            (countBlank ((parseCSVLines csvText).drop 2)) ≠ [])
    (hrem :
      ((parseQuestionsLoop (jsTrim ((parseCSVLines csvText).getD 1 ""))
          ((((parseCSVLines csvText).drop 2).drop
              (countBlank ((parseCSVLines csvText).drop 2))).drop 1)
          (2 + countBlank ((parseCSVLines csvText).drop 2) + 1)).2.2.1).drop
        (countBlank
          (parseQuestionsLoop (jsTrim ((parseCSVLines csvText).getD 1 ""))
              ((((parseCSVLines csvText).drop 2).drop
                  (countBlank ((parseCSVLines csvText).drop 2))).drop 1)
              (2 + countBlank ((parseCSVLines csvText).drop 2) + 1)).2.2.1) = []) :
    parseCSVToChart csvText = .error .diagnosesSectionMissing := by
  unfold parseCSVToChart
  rw [if_neg (by omega)]
  rcases hql : parseQuestionsLoop (jsTrim ((parseCSVLines csvText).getD 1 ""))
      ((((parseCSVLines csvText).drop 2).drop
          (countBlank ((parseCSVLines csvText).drop 2))).drop 1)
      (2 + countBlank ((parseCSVLines csvText).drop 2) + 1) with ⟨qs, qerrs, rem, ridx⟩
  rw [hql] at hrem
  simp only [hql]
  rw [if_neg (by simpa [List.isEmpty_iff] using hq)]
  rw [if_pos (by simpa [List.isEmpty_iff] using hrem)]

/-- A CSV text whose diagnoses section is entirely absent AND whose one
question row fails validation (non-numeric point field "x"). -/
def csvNoDiagnoses : String := "name\nsingle\n\nQHDR\n1,0,c,Q,a,b,,,,x,2"

/-- Witness for C7: on `csvNoDiagnoses` the compiler reports the
structural diagnoses-section error, even though the questions loop also
accumulated a row failure (second conjunct). -/
theorem missing_diagnoses_section_is_structural_witness :
    parseCSVToChart csvNoDiagnoses = .error .diagnosesSectionMissing ∧
    (parseQuestionsLoop "single" ["1,0,c,Q,a,b,,,,x,2"] 4).2.1 ≠ [] :=
  ⟨missing_diagnoses_section_is_structural csvNoDiagnoses
     (by decide) (by decide) (by decide),
   by decide⟩

lemma qRowLoop_lengths (fields : List String) (chartType : String) (idVal : Int) :
    ∀ (l : List Nat) (cs : List String) (ns ps : List Int),
      qRowLoop fields chartType idVal l = .ok (cs, ns, ps) →
      cs.length ≤ l.length ∧ ns.length = cs.length ∧
        (chartType = "decision" → ps = []) ∧
        (chartType ≠ "decision" → ps.length = cs.length) := by
  intro l
  induction l with
  | nil =>
      intro cs ns ps h
      simp only [qRowLoop, Except.ok.injEq, Prod.mk.injEq] at h
      obtain ⟨h1, h2, h3⟩ := h
      subst h1; subst h2; subst h3
      simp
  | cons i is ih =>
      intro cs ns ps h
      simp only [qRowLoop] at h
      split at h
      · split at h
        · split at h
          · exact Except.noConfusion h
          · split at h
            · exact Except.noConfusion h
            · next cs' ns' ps' hrec =>
                obtain ⟨h1, h2, h3, h4⟩ := ih cs' ns' ps' hrec
                split at h
                · next hd =>
                    simp only [Except.ok.injEq, Prod.mk.injEq] at h
                    obtain ⟨hcs, hns, hps⟩ := h
                    subst hcs; subst hns; subst hps
                    refine ⟨by simpa using Nat.succ_le_succ h1, by simp [h2], ?_, ?_⟩
                    · intro _; exact h3 hd
                    · intro hnd; exact absurd hd hnd
                · next hd =>
                    simp only [Except.ok.injEq, Prod.mk.injEq] at h
                    obtain ⟨hcs, hns, hps⟩ := h
                    subst hcs; subst hns; subst hps
                    refine ⟨by simpa using Nat.succ_le_succ h1, by simp [h2], ?_, ?_⟩
                    · intro hdd; exact absurd hdd hd
                    · intro _; simp [h4 hd]
        · exact Except.noConfusion h
      · obtain ⟨h1, h2, h3, h4⟩ := ih cs ns ps h
        exact ⟨Nat.le_succ_of_le h1, h2, h3, h4⟩

/-- The per-question shape invariant of §3. -/
def QInv (q : IQuestion) : Prop :=
  2 ≤ q.choises.length ∧ q.choises.length ≤ 5 ∧
  q.nexts.length = q.choises.length ∧
  ∀ ps, q.points = some ps → ps.length = q.choises.length

lemma parseQuestionRow_sound (fields : List String) (chartType : String)
    (q : IQuestion) (h : parseQuestionRow fields chartType = .ok q) :
    QInv q := by
  unfold parseQuestionRow at h
  dsimp only at h
  split at h
  · exact Except.noConfusion h
  · next cs ns ps hloop =>
      obtain ⟨h1, h2, h3, h4⟩ :=
        qRowLoop_lengths (padFields fields 14) chartType
          ((jsParseInt ((padFields fields 14).getD 0 "")).getD 0)
          [0, 1, 2, 3, 4] cs ns ps hloop
      split at h
      · exact Except.noConfusion h
      · split at h
        · exact Except.noConfusion h
        · split at h
          · exact Except.noConfusion h
          · split at h
            · exact Except.noConfusion h
            · injection h with h'
              subst h'
              have h5 : ([0, 1, 2, 3, 4] : List Nat).length = 5 := rfl
              unfold QInv
              dsimp only
              refine ⟨by omega, by omega, by omega, ?_⟩
              intro ps' hps'
              split at hps'
              · next hcond =>
                  injection hps' with h''
                  subst h''
                  have hnd : chartType ≠ "decision" := by
                    rcases hcond.1 with hs | hm
                    · rw [hs]; decide
                    · rw [hm]; decide
                  have := h4 hnd
                  omega
              · exact Option.noConfusion hps'

lemma parseQuestionsLoop_sound (chartType : String) :
    ∀ (l : List String) (idx : Nat) (q : IQuestion),
      q ∈ (parseQuestionsLoop chartType l idx).1 → QInv q := by
  intro l
  induction l with
  | nil => intro idx q hq; simp [parseQuestionsLoop] at hq
  | cons line rest ih =>
      intro idx q hq
      simp only [parseQuestionsLoop] at hq
      split at hq
      · simp at hq
      · split at hq
        · exact ih (idx + 1) q hq
        · split at hq
          · next q' hrow =>
              rcases hrec : parseQuestionsLoop chartType rest (idx + 1) with ⟨qs, errs, rem, idx'⟩
              rw [hrec] at hq
              simp only [List.mem_cons] at hq
              rcases hq with rfl | hq
              · exact parseQuestionRow_sound _ _ _ hrow
              · have := ih (idx + 1) q
                rw [hrec] at this
                exact this hq
          · next e hrow =>
              rcases hrec : parseQuestionsLoop chartType rest (idx + 1) with ⟨qs, errs, rem, idx'⟩
              rw [hrec] at hq
              have := ih (idx + 1) q
              rw [hrec] at this
              exact this hq

/-- C8: whenever the compiler succeeds, the returned chart has at least
one question, at least one diagnosis, and every question carries between
2 and 5 choices, a `nexts` list of the same length as the choices and —
when present — a `points` list of that same length. -/
theorem compile_success_invariants (csvText : String) (chart : IChart)
    (h : parseCSVToChart csvText = .ok chart) :
    chart.questions ≠ [] ∧ chart.diagnoses ≠ [] ∧
    ∀ q ∈ chart.questions,
      2 ≤ q.choises.length ∧ q.choises.length ≤ 5 ∧
      q.nexts.length = q.choises.length ∧
      ∀ ps, q.points = some ps → ps.length = q.choises.length := by
  unfold parseCSVToChart at h
  dsimp only at h
  repeat' split at h
  all_goals try exact Except.noConfusion h
  all_goals rename_i hcontra hqne hdne
  all_goals try simp at hcontra
  injection h with h'
  subst h'
  refine ⟨?_, ?_, ?_⟩
  · simpa [List.isEmpty_iff] using hqne
  · simpa [List.isEmpty_iff] using hdne
  · intro q hq
    exact parseQuestionsLoop_sound _ _ _ q hq

/-- A well-formed single-type CSV text. -/
def csvValid : String := "name\nsingle\n\nQHDR\n1,1,c,Q,yes,no,,,,1,2\n\n1,c,0,10,Good"

/-- The chart `csvValid` compiles to. -/
def chartValid : IChart :=
  { name := "name", type := "single",
    questions := [{ id := 1, isLast := true, category := "c", sentence := "Q",
                    choises := ["yes", "no"], nexts := [2, 2], points := some [1, 2] }],
    diagnoses := [{ id := 1, category := "c", lower := 0, upper := 10, sentence := "Good" }] }

/-- Witness for C8 at the concrete text `csvValid`. -/
theorem compile_success_invariants_witness :
    parseCSVToChart csvValid = .ok chartValid ∧
    (chartValid.questions ≠ [] ∧ chartValid.diagnoses ≠ [] ∧
     ∀ q ∈ chartValid.questions,
       2 ≤ q.choises.length ∧ q.choises.length ≤ 5 ∧
       q.nexts.length = q.choises.length ∧
       ∀ ps, q.points = some ps → ps.length = q.choises.length) :=
  ⟨by decide, compile_success_invariants csvValid chartValid (by decide)⟩

/-! ## Runs of the evaluator

A run is the fold of `handleChoiceSelect` over a list of chosen
indices, starting from a question and a run state; it stops at the
first completion or failure, and is `inProgress` when the choices are
exhausted first. -/

inductive RunOutcome where
  | completed (r : IResult)
  | inProgress (q : IQuestion) (r : IResult)
  | failed (e : EvalError)
  deriving Repr, DecidableEq

/-- Iterate the evaluator over a list of choice indices. -/
def runChoices (chart : IChart) : IQuestion → IResult → List Nat → RunOutcome
  | q, r, [] => .inProgress q r
  | q, r, c :: cs =>
    match handleChoiceSelect chart q r c with
    | .error e => .failed e
    | .ok (.completed r') => .completed r'
    | .ok (.moved r' q') => runChoices chart q' r' cs

lemma lookupQuestion_mem (questions : List IQuestion) (o : Option Int)
    (q : IQuestion) (h : lookupQuestion questions o = some q) :
    q ∈ questions := by
  cases o with
  | none => exact Option.noConfusion h
  | some t => exact List.mem_of_find?_eq_some h

lemma runChoices_progress_bound (chart : IChart) (m : IQuestion → Nat)
    (htype : chart.type = "decision")
    (hadv : ∀ q ∈ chart.questions, q.isLast = false →
      ∀ c q', lookupQuestion chart.questions (q.nexts.get? c) = some q' → m q < m q') :
    ∀ (cs : List Nat) (q : IQuestion) (r : IResult) (q' : IQuestion) (r' : IResult),
      q ∈ chart.questions →
      runChoices chart q r cs = .inProgress q' r' →
      q' ∈ chart.questions ∧ m q + cs.length ≤ m q' := by
  intro cs
  induction cs with
  | nil =>
      intro q r q' r' hq h
      injection h with h1 h2
      subst h1
      simpa using hq
  | cons c cs ih =>
      intro q r q' r' hq h
      simp only [runChoices] at h
      cases hstep : handleChoiceSelect chart q r c with
      | error e => rw [hstep] at h; exact RunOutcome.noConfusion h
      | ok sr =>
          rw [hstep] at h
          cases sr with
          | completed r'' => exact RunOutcome.noConfusion h
          | moved r'' qn =>
              by_cases hl : q.isLast = true
              · simp [handleChoiceSelect, hl, htype] at hstep
              · replace hl : q.isLast = false := by
                  cases hql : q.isLast
                  · rfl
                  · exact absurd hql hl
                simp [handleChoiceSelect, hl, htype] at hstep
                cases hlk : lookupQuestion chart.questions q.nexts[c]? with
                | none =>
                    rw [hlk] at hstep
                    exact Except.noConfusion hstep
                | some nq =>
                    rw [hlk] at hstep
                    injection hstep with hstep'
                    injection hstep' with hr hqn
                    subst hqn
                    subst hr
                    have hlk' : lookupQuestion chart.questions (q.nexts.get? c) = some nq := by
                      rw [List.get?_eq_getElem?]
                      exact hlk
                    have hmem : nq ∈ chart.questions :=
                      lookupQuestion_mem chart.questions _ nq hlk'
                    have hlt : m q < m nq := hadv q hq hl c nq hlk'
                    obtain ⟨hmem', hle⟩ := ih _ _ q' r' hmem h
                    refine ⟨hmem', ?_⟩
                    simp only [List.length_cons]
                    omega

/-- C9: on a decision chart in which every non-final transition target
strictly advances (witnessed by a rank function `m` bounded by the
question count) and targets of in-range choices exist, no run can still
be `inProgress` after `questions.length` transitions — it must have
completed within `questions.length` steps — and from any reachable
in-progress state every in-range choice makes the next transition
succeed. -/
theorem decision_run_bounded (chart : IChart) (m : IQuestion → Nat) (q0 : IQuestion)
    (htype : chart.type = "decision")
    (hq0 : q0 ∈ chart.questions)
    (hbound : ∀ q ∈ chart.questions, m q < chart.questions.length)
    (hadv : ∀ q ∈ chart.questions, q.isLast = false →
      ∀ c q', lookupQuestion chart.questions (q.nexts.get? c) = some q' → m q < m q')
    (hex : ∀ q ∈ chart.questions, q.isLast = false →
      ∀ c, c < q.choises.length →
        (lookupQuestion chart.questions (q.nexts.get? c)).isSome = true) :
    ∀ (cs : List Nat) (r : IResult) (q' : IQuestion) (r' : IResult),
      runChoices chart q0 r cs = .inProgress q' r' →
      cs.length < chart.questions.length ∧
      (∀ c, c < q'.choises.length → ∃ res, handleChoiceSelect chart q' r' c = .ok res) := by
  intro cs r q' r' h
  obtain ⟨hmem, hle⟩ := runChoices_progress_bound chart m htype hadv cs q0 r q' r' hq0 h
  have hb := hbound q' hmem
  refine ⟨by omega, ?_⟩
  intro c hc
  by_cases hl : q'.isLast = true
  · refine ⟨.completed { r' with
      diagnosisId := q'.nexts.get? c,
      currentPoint := some (r'.currentPoint.getD 0),
      currentPoints := r'.currentPoints,
      history := r'.history ++ [{ questionId := q'.id, choise := (c : Int) }] }, ?_⟩
    simp [handleChoiceSelect, hl, htype]
  · replace hl : q'.isLast = false := by
      cases hql : q'.isLast
      · rfl
      · exact absurd hql hl
    obtain ⟨nq, hnq⟩ := Option.isSome_iff_exists.mp (hex q' hmem hl c hc)
    have hnq' : lookupQuestion chart.questions q'.nexts[c]? = some nq := by
      rw [← List.get?_eq_getElem?]
      exact hnq
    refine ⟨.moved { r' with
      currentQId := some nq.id,
      currentPoint := some (r'.currentPoint.getD 0),
      currentPoints := r'.currentPoints,
      history := r'.history ++ [{ questionId := q'.id, choise := (c : Int) }] } nq, ?_⟩
    simp [handleChoiceSelect, hl, htype, hnq']

/-- Decision-chart witness fixtures: question 1 advances to question 2,
question 2 is terminal. -/
def qD1 : IQuestion :=
  { id := 1, isLast := false, category := "default", sentence := "D1",
    choises := ["a", "b"], nexts := [2, 2], points := none }

def qD2 : IQuestion :=
  { id := 2, isLast := true, category := "default", sentence := "D2",
    choises := ["a", "b"], nexts := [7, 8], points := none }

def cD : IChart :=
  { name := "d", type := "decision", questions := [qD1, qD2],
    diagnoses :=
      [{ id := 7, category := "default", lower := 0, upper := 0, sentence := "S7" },
       { id := 8, category := "default", lower := 0, upper := 0, sentence := "S8" }] }

/-- A rank function for `cD`: question 1 before question 2. -/
def mD : IQuestion → Nat := fun q => if q.id = 1 then 0 else 1

def rD : IResult :=
  { chartName := "d", chartType := "decision", timestamp := "t", photo := "",
    currentQId := some 1, currentPoint := none, currentPoints := [],
    diagnosisId := none, history := [] }

/-- The run state after answering choice 0 on question 1 of `cD`. -/
def rD' : IResult :=
  { chartName := "d", chartType := "decision", timestamp := "t", photo := "",
    currentQId := some 2, currentPoint := some 0, currentPoints := [],
    diagnosisId := none, history := [{ questionId := 1, choise := 0 }] }

/-- Witness for C9 on `cD`: one transition leaves the run at question 2,
one below the two-question bound, and every in-range choice there can
step. -/
theorem decision_run_bounded_witness :
    runChoices cD qD1 rD [0] = .inProgress qD2 rD' ∧
    (([0] : List Nat).length < cD.questions.length ∧
     ∀ c, c < qD2.choises.length → ∃ res, handleChoiceSelect cD qD2 rD' c = .ok res) := by
  have hadv : ∀ q ∈ cD.questions, q.isLast = false →
      ∀ c q', lookupQuestion cD.questions (q.nexts.get? c) = some q' → mD q < mD q' := by
    intro q hq hlast c q' hlk
    have hq' : q = qD1 ∨ q = qD2 := by simpa [cD] using hq
    rcases hq' with rfl | rfl
    · rcases c with _ | _ | c
      · have he : lookupQuestion cD.questions (qD1.nexts.get? 0) = some qD2 := by decide
        rw [he] at hlk
        injection hlk with h'
        subst h'
        decide
      · have he : lookupQuestion cD.questions (qD1.nexts.get? 1) = some qD2 := by decide
        rw [he] at hlk
        injection hlk with h'
        subst h'
        decide
      · have he : qD1.nexts.get? (c + 2) = none := by simp [qD1]
        rw [he] at hlk
        exact Option.noConfusion hlk
    · exact absurd hlast (by decide)
  exact ⟨by decide,
    decision_run_bounded cD mD qD1 rfl (by decide) (by decide) hadv (by decide)
      [0] rD qD2 rD' (by decide)⟩

/-! ## Backend SaveResultHandler

The record construction of the save endpoint after a successful JSON
bind (absent optional fields bind to nil pointers — the struct carries
no `binding:"required"` tags) and a successful photo encryption.  The
passphrase draw and file IO are externalized; the modelled fragment is
the `Result` literal, whose `ResultID` and `Point` fields dereference
the nil-able pointers `requestData.DiagnosisId` and
`requestData.CurrentPoint` with no nil check — a nil pointer
dereference panics in Go, modelled by the `panicNilDeref` outcome. -/

/-- The stored row (backend models Result), the fields the handler
fills; the surrogate id is assigned by the store. -/
structure Result where
  timestamp : String
  passphrase : String
  chartName : String
  resultID : String
  point : Int
  chooseHistory : List IHistory
  deriving Repr, DecidableEq

/-- Outcome of the modelled handler fragment. -/
inductive SaveOutcome where
  | panicNilDeref
  | saved (rec : Result)
  deriving Repr, DecidableEq

/-- Source `SaveResultHandler`'s `Result` construction: evaluated left to
right, `ResultID: strconv.Itoa(*requestData.DiagnosisId)` dereferences
first, then `Point: *requestData.CurrentPoint`. -/
def SaveResultHandler (requestData : IResult) (passphrase : String) : SaveOutcome :=
  match requestData.diagnosisId with
  | none => .panicNilDeref
  | some diagnosisId =>
    match requestData.currentPoint with
    | none => .panicNilDeref
    | some currentPoint =>
        .saved { timestamp := requestData.timestamp,
                 passphrase := passphrase,
                 chartName := requestData.chartName,
                 resultID := toString diagnosisId,
                 point := currentPoint,
                 chooseHistory := requestData.history }

/-- C10: the handler panics (nil-pointer dereference) on every bound
request whose `diagnosisId` or `currentPoint` is absent, instead of
producing an error response; and its outcome — in particular the stored
record — never depends on the submitted `currentPoints` list, so the
multi-type per-category scores are never persisted. -/
theorem save_result_derefs_and_drops_points :
    (∀ requestData passphrase, requestData.diagnosisId = none →
      SaveResultHandler requestData passphrase = .panicNilDeref) ∧
    (∀ requestData passphrase, requestData.currentPoint = none →
      SaveResultHandler requestData passphrase = .panicNilDeref) ∧
    (∀ requestData passphrase pts,
      SaveResultHandler { requestData with currentPoints := pts } passphrase =
        SaveResultHandler requestData passphrase) := by
  refine ⟨?_, ?_, ?_⟩
  · intro req p h
    simp [SaveResultHandler, h]
  · intro req p h
    cases hd : req.diagnosisId with
    | none => simp [SaveResultHandler, hd]
    | some d => simp [SaveResultHandler, hd, h]
  · intro req p pts
    simp [SaveResultHandler]

/-- A syntactically well-formed save request (a valid bind) with no
`diagnosisId` and no `currentPoint`, but with per-category points. -/
def reqNoDiag : IResult :=
  { chartName := "m", chartType := "multi", timestamp := "t", photo := "",
    currentQId := some 2, currentPoint := none,
    currentPoints := [{ category := "A", point := 2 }],
    diagnosisId := none, history := [{ questionId := 1, choise := 0 }] }

/-- Witness for C10 at `reqNoDiag`. -/
theorem save_result_derefs_and_drops_points_witness :
    reqNoDiag.diagnosisId = none ∧
    SaveResultHandler reqNoDiag "p" = .panicNilDeref ∧
    SaveResultHandler { reqNoDiag with currentPoints := [] } "p" =
      SaveResultHandler reqNoDiag "p" :=
  ⟨rfl,
   save_result_derefs_and_drops_points.1 reqNoDiag "p" rfl,
   save_result_derefs_and_drops_points.2.2 reqNoDiag "p" []⟩
